import Mathlib

/-!
Verification development for the `vite-plugin-eslint` repository.

The source (`src/index.js`) has three parts relevant here:
* `compilePattern` — turns a glob-like string into an anchored JavaScript
  regular expression (a `RegExp` input is returned verbatim);
* `createFilter` / `handlePath` / the returned `filter` closure — the
  include/exclude path filter;
* the plugin's `transform` hook — the lint-result-to-build-failure policy.

Strings are modelled as `List Char`.  JavaScript regular expressions are
modelled by a small AST (`Atom`, `Item`) covering exactly the constructs the
strings built by `compilePattern` can contain, together with a backtracking
matcher (`matchEnd`) implementing ECMAScript search semantics: `^` is a
start-of-input assertion wherever it occurs (no multiline flag is ever set),
`$` an end-of-input assertion, `[^/]` a negated character class, `.` any
character except a line terminator, and postfix `*` greedy repetition of the
preceding single-character atom.  `RegExp.prototype.test` performs an
unanchored search, so the matcher is tried at every start position.
-/

namespace VPE

/-- Single-character regular-expression atoms: a literal character, the `.`
wildcard, or a character class (`neg = true` for a `[^...]` class). -/
inductive Atom where
  | lit (c : Char)
  | dot
  | cls (neg : Bool) (cs : List Char)
  deriving Repr, DecidableEq

/-- Regular-expression items as they occur in the strings `compilePattern`
builds: an atom, a starred atom, or the `^` / `$` assertions. -/
inductive Item where
  | atom (a : Atom)
  | star (a : Atom)
  | bol
  | eol
  deriving Repr, DecidableEq

/-- Line terminators, which the ECMAScript `.` wildcard does not match. -/
def lineTerminators : List Char := ['\n', '\r', Char.ofNat 0x2028, Char.ofNat 0x2029]

/-- Whether a single character satisfies an atom. -/
def atomTest : Atom → Char → Bool
  | Atom.lit c, d => c = d
  | Atom.dot, d => ¬ lineTerminators.contains d
  | Atom.cls neg cs, d => if neg then ¬ cs.contains d else cs.contains d

/-- Backtracking matcher.  `matchEnd fuel its s p` attempts to match the item
sequence `its` against `s` starting at absolute position `p` and returns the
end position of a match (`^` succeeds only at position 0, `$` only at the end
of the input).  `*` is greedy: the consuming branch is tried first, so the
returned end position is the one ECMAScript computes.  `fuel` bounds the
recursion depth; every recursive call decreases `its.length + (s.length - p)`,
so any `fuel` above that sum gives the true answer. -/
def matchEnd (fuel : Nat) (its : List Item) (s : List Char) (p : Nat) : Option Nat :=
  match fuel with
  | 0 => none
  | fuel + 1 =>
    match its with
    | [] => some p
    | Item.bol :: rest => if p = 0 then matchEnd fuel rest s p else none
    | Item.eol :: rest => if p = s.length then matchEnd fuel rest s p else none
    | Item.atom a :: rest =>
      if h : p < s.length then
        if atomTest a (s.get ⟨p, h⟩) then matchEnd fuel rest s (p + 1) else none
      else none
    | Item.star a :: rest =>
      match (if h : p < s.length then
               (if atomTest a (s.get ⟨p, h⟩) then matchEnd fuel its s (p + 1) else none)
             else none) with
      | some e => some e
      | none => matchEnd fuel rest s p

/-- Fuel that always suffices for `matchEnd` on `its`, `s`. -/
def stdFuel (its : List Item) (s : List Char) : Nat :=
  its.length + s.length + 1

/-- ECMAScript unanchored search: try `matchEnd` at every start position from
`start` upwards, returning the end position of the first (leftmost) match. -/
def searchFrom (its : List Item) (s : List Char) (start : Nat) : Option Nat :=
  ((List.range (s.length + 1 - start)).map (· + start)).findSome?
    (fun p => matchEnd (stdFuel its s) its s p)

/-- ECMAScript `RegExp.prototype.test` for a regex without the `g` flag:
search from 0. -/
def testItems (its : List Item) (s : List Char) : Bool :=
  (searchFrom its s 0).isSome

/-- Characters matched by the character class of the escape step
`pattern.replace(...)`, whose replacement prepends a backslash to each
occurrence. -/
def metaChars : List Char :=
  ['|', '\\', '{', '}', '(', ')', '[', ']', '^', '$', '+', '*', '?', '.']

/-- The escape step: every metacharacter occurrence `c` becomes `\c`.
The JavaScript replace is global over single-character matches, i.e. exactly
this character-wise expansion. -/
def escapeChars : List Char → List Char
  | [] => []
  | c :: cs => (if metaChars.contains c then ['\\', c] else [c]) ++ escapeChars cs

/-- The second step of `compilePattern`: replace each non-overlapping
occurrence of two consecutive `*` characters, left to right, by the two
characters `.*` (the replace call with the doubled-star regex). -/
def replaceDoubleStar : List Char → List Char
  | [] => []
  | [c] => [c]
  | c :: d :: cs =>
    if c = '*' ∧ d = '*' then '.' :: '*' :: replaceDoubleStar cs
    else c :: replaceDoubleStar (d :: cs)

/-- The third step of `compilePattern`: replace every remaining `*`
character by the five characters `[^/]*` (the replacement text is not
rescanned, matching JavaScript `String.prototype.replace`). -/
def replaceStar : List Char → List Char
  | [] => []
  | c :: cs =>
    if c = '*' then '[' :: '^' :: '/' :: ']' :: '*' :: replaceStar cs
    else c :: replaceStar cs

/-- The exact character sequence of the regular expression source
`compilePattern` hands to `new RegExp`: `'^' + escaped + '$'` where
`escaped` is the escape step followed by the two star replacements. -/
def compiledSource (s : List Char) : List Char :=
  '^' :: (replaceStar (replaceDoubleStar (escapeChars s)) ++ ['$'])

/-- Parser from a regular-expression source string to the item list, with
ECMAScript semantics for every construct that `compiledSource` can emit:
identity escapes `\c`, the `^` and `$` assertions, `.`, the class `[^/]`
(the only class the compiler ever emits), postfix `*` on the preceding atom,
and all other characters as literals (an unmatched `]` is a literal in
JavaScript).  Unescaped `(`, `)`, `{`, `}`, `|`, `+`, `?` and other classes
never occur in `compiledSource` output, since the escape step quotes them. -/
def parseItems : List Char → List Item
  | [] => []
  | '^' :: rest => Item.bol :: parseItems rest
  | '$' :: rest => Item.eol :: parseItems rest
  | '\\' :: d :: '*' :: rest => Item.star (Atom.lit d) :: parseItems rest
  | '\\' :: d :: rest => Item.atom (Atom.lit d) :: parseItems rest
  | ['\\'] => []
  | '.' :: '*' :: rest => Item.star Atom.dot :: parseItems rest
  | '.' :: rest => Item.atom Atom.dot :: parseItems rest
  | '[' :: '^' :: '/' :: ']' :: '*' :: rest => Item.star (Atom.cls true ['/']) :: parseItems rest
  | '[' :: '^' :: '/' :: ']' :: rest => Item.atom (Atom.cls true ['/']) :: parseItems rest
  | '[' :: rest => Item.atom (Atom.lit '[') :: parseItems rest
  | c :: '*' :: rest => Item.star (Atom.lit c) :: parseItems rest
  | c :: rest => Item.atom (Atom.lit c) :: parseItems rest

/-- A pattern handed to `createFilter`: a glob-like string, or an already
compiled regular expression (which the source returns verbatim), here taken
as its item list so that matching stays executable. -/
inductive Pattern where
  | str (s : List Char)
  | regex (its : List Item)

/-- The source's `compilePattern` restricted to the string branch, composed
with the meaning of the produced regex source: the item list of
`new RegExp('^' + escaped + '$')`. -/
def compilePattern (s : List Char) : List Item :=
  parseItems (compiledSource s)

/-- The matchable predicate of a compiled pattern (`regex.test(id)` for a
regex without the `g` flag; string patterns compile to flagless regexes). -/
def patternTest : Pattern → List Char → Bool
  | Pattern.str s, id => testItems (compilePattern s) id
  | Pattern.regex its, id => testItems its id

/-- An `include`/`exclude` argument of `createFilter`: `null`/`undefined`,
a single pattern, or an array of patterns. -/
inductive PathArg where
  | nullish
  | single (p : Pattern)
  | array (ps : List Pattern)

/-- The source's `handlePath`: `null`/`undefined` become the empty list, a
single pattern a one-element list, and each element is compiled; the result
is the list of compiled matchable predicates. -/
def handlePath : PathArg → List (List Char → Bool)
  | PathArg.nullish => []
  | PathArg.single p => [patternTest p]
  | PathArg.array ps => ps.map patternTest

/-- The closure returned by `createFilter`: exclude first (`.some` over the
compiled excludes), then the empty-include default, then `.some` over the
compiled includes. -/
def filter (compiledInclude compiledExclude : List (List Char → Bool))
    (id : List Char) : Bool :=
  if compiledExclude.any (fun regexTest => regexTest id) then false
  else if compiledInclude.length = 0 then true
  else compiledInclude.any (fun regexTest => regexTest id)

/-- The source's `createFilter`, composing `handlePath` with `filter`. -/
def createFilter (includeArg excludeArg : PathArg) : List Char → Bool :=
  filter (handlePath includeArg) (handlePath excludeArg)

/-! ## The transform hook (result policy)

The `transform` hook is modelled as a function of the plugin options, the
compiled filter lists, the module id, and an environment capturing what the
external collaborators (the ESLint engine and the formatter) return during
this cycle — each as `Except`, since every `await` may throw.  The outcome
records whether the hook returned `null` or threw, and which side effects
(`ESLint.outputFixes`, `console.log`, `console.error`) were performed. -/

/-- Per-file lint result record, as far as the policy reads it. -/
structure LintResult where
  errorCount : Nat
  warningCount : Nat
  deriving Repr, DecidableEq

/-- The plugin option flags the result policy reads. -/
structure Options where
  fix : Bool
  throwOnError : Bool
  throwOnWarning : Bool
  deriving Repr, DecidableEq

/-- What the external collaborators answer during one transform cycle:
`eslint.isPathIgnored(id)`, `eslint.lintText(code, ...)`, and the composite
`loadFormatter`/`format` call; each may throw (`Except.error` carries the
thrown error's message).  `relativePath` is `relative(process.cwd(), id)`. -/
structure Env where
  isIgnored : Except (List Char) Bool
  lintResults : Except (List Char) (List LintResult)
  fmtOutput : Except (List Char) (List Char)
  relativePath : List Char

/-- How the hook finishes: `return null`, or a thrown error with a message. -/
inductive Outcome where
  | retNull
  | thrown (msg : List Char)
  deriving Repr, DecidableEq

/-- Side effects of one transform cycle: whether `ESLint.outputFixes` ran,
the `console.log` outputs, and the `console.error` outputs. -/
structure Effects where
  fixesApplied : Bool
  logs : List (List Char)
  errLogs : List (List Char)
  deriving Repr, DecidableEq

/-- Outcome and effects of one transform cycle. -/
structure TransformResult where
  outcome : Outcome
  effects : Effects
  deriving Repr, DecidableEq

/-- Prefix test: `leadsWith pat s` iff `pat` is an initial segment of `s`. -/
def leadsWith : List Char → List Char → Bool
  | [], _ => true
  | _ :: _, [] => false
  | c :: cs, d :: ds => c = d && leadsWith cs ds

/-- Substring test, as in `String.prototype.includes`. -/
def containsSub (pat : List Char) : List Char → Bool
  | [] => leadsWith pat []
  | d :: ds => leadsWith pat (d :: ds) || containsSub pat ds

/-- The marker text the catch block of `transform` looks for inside
`error.message` to recognize its own lint aborts. -/
def errorMarker : List Char := "ESLint validation failed".toList

/-- The abort message built at the throw site of `transform`: the template
`ESLint validation failed for ` + relativePath + `: ` + the message parts
joined by ` and `.  The errors part and the warnings part are pushed only
when truthy (non-empty); each renders its count, the singular noun, and a
plural `s` exactly when the count exceeds 1. -/
def validationMessage (relativePath : List Char) (errorCount warningCount : Nat) : List Char :=
  let errors :=
    if 0 < errorCount then
      (toString errorCount).toList ++ " error".toList ++
        (if 1 < errorCount then "s".toList else [])
    else []
  let warnings :=
    if 0 < warningCount then
      (toString warningCount).toList ++ " warning".toList ++
        (if 1 < warningCount then "s".toList else [])
    else []
  let messageParts :=
    (if errors ≠ [] then [errors] else []) ++ (if warnings ≠ [] then [warnings] else [])
  "ESLint validation failed for ".toList ++ relativePath ++ ": ".toList ++
    List.intercalate " and ".toList messageParts

/-- The body of the `try` block of `transform`, from the `isPathIgnored`
check onward: accumulated effects, plus `some msg` when an error with
message `msg` escapes the block (a collaborator throw or the policy's own
validation throw).  Mirrors the source order: ignore check, lint, fix
(`outputFixes` iff `fix && results.length > 0`), then — only for a non-empty
result list — format, log, and the abort decision read off `results[0]`. -/
def tryBody (opts : Options) (env : Env) : Effects × Option (List Char) :=
  match env.isIgnored with
  | Except.error e => (⟨false, [], []⟩, some e)
  | Except.ok true => (⟨false, [], []⟩, none)
  | Except.ok false =>
    match env.lintResults with
    | Except.error e => (⟨false, [], []⟩, some e)
    | Except.ok results =>
      let fixesApplied := opts.fix && decide (0 < results.length)
      match results with
      | [] => (⟨fixesApplied, [], []⟩, none)
      | result :: _ =>
        match env.fmtOutput with
        | Except.error e => (⟨fixesApplied, [], []⟩, some e)
        | Except.ok output =>
          let logs := if output ≠ [] then [output] else []
          let hasErrors := decide (0 < result.errorCount)
          let hasWarnings := decide (0 < result.warningCount)
          if (hasErrors && opts.throwOnError) || (hasWarnings && opts.throwOnWarning) then
            (⟨fixesApplied, logs, []⟩,
             some (validationMessage env.relativePath result.errorCount result.warningCount))
          else (⟨fixesApplied, logs, []⟩, none)

/-- The whole `transform` hook: the filter gate, the `try` body, and the
`catch` block.  The `catch` asks whether `error.message` includes the
marker text `ESLint validation failed`: other errors are
`console.error`-logged and rethrown with their message behind the
`ESLint plugin error: ` tag only when `throwOnError` is set; messages
containing the marker are rethrown unchanged. -/
def transform (opts : Options) (compiledInclude compiledExclude : List (List Char → Bool))
    (id : List Char) (env : Env) : TransformResult :=
  if ¬ filter compiledInclude compiledExclude id then ⟨Outcome.retNull, ⟨false, [], []⟩⟩
  else
    match tryBody opts env with
    | (eff, none) => ⟨Outcome.retNull, eff⟩
    | (eff, some emsg) =>
      if ¬ containsSub errorMarker emsg then
        let eff2 := { eff with
          errLogs := eff.errLogs ++ ["Error running ESLint on ".toList ++ id ++ ":".toList] }
        if opts.throwOnError then
          ⟨Outcome.thrown ("ESLint plugin error: ".toList ++ emsg), eff2⟩
        else ⟨Outcome.retNull, eff2⟩
      else ⟨Outcome.thrown emsg, eff⟩

/-! ## Regex objects with state

`createFilter` stores the compiled `RegExp` objects in two arrays and the
returned closure calls `regex.test(id)` on them.  A JavaScript `RegExp`
carries a mutable `lastIndex` property which `test` reads and writes when the
regex has the `g` flag, so the closure is only pure when no stored regex is
global.  This model makes that state explicit.  String patterns always
compile to flagless regexes (`new RegExp(...)` with no flags argument);
caller-supplied regexes are stored verbatim, flags included. -/

/-- A JavaScript `RegExp` object as the filter closure holds it: its pattern
(as an item list), its `global` flag, and its mutable `lastIndex`. -/
structure JsRegex where
  items : List Item
  global : Bool
  lastIndex : Nat
  deriving Repr, DecidableEq

/-- ECMAScript `RegExp.prototype.test` with its state semantics: a global regex
starts its search at `lastIndex` (failing outright when `lastIndex` exceeds
the input length), stores the match's end position back into `lastIndex` on
success and resets it to 0 on failure; a non-global regex searches from 0
and leaves its state untouched. -/
def testR (r : JsRegex) (s : List Char) : Bool × JsRegex :=
  let start := if r.global then r.lastIndex else 0
  if s.length < start then (false, if r.global then { r with lastIndex := 0 } else r)
  else
    match searchFrom r.items s start with
    | some e => (true, if r.global then { r with lastIndex := e } else r)
    | none => (false, if r.global then { r with lastIndex := 0 } else r)

/-- The call `array.some(regex => regex.test(id))` with state threading: the regexes
are tested left to right until one matches (`.some` short-circuits), and the
possibly updated regex objects stay in the array. -/
def someTestR : List JsRegex → List Char → Bool × List JsRegex
  | [], _ => (false, [])
  | r :: rs, s =>
    let first := testR r s
    if first.fst then (true, first.snd :: rs)
    else
      let rest := someTestR rs s
      (rest.fst, first.snd :: rest.snd)

/-- The state captured by the `filter` closure: the two arrays of compiled
regex objects. -/
structure FilterState where
  compiledInclude : List JsRegex
  compiledExclude : List JsRegex
  deriving Repr, DecidableEq

/-- The `filter` closure with regex state explicit: the same decision logic
as `filter`, threading `lastIndex` updates through each `.some` call. -/
def filterR (st : FilterState) (id : List Char) : Bool × FilterState :=
  let ex := someTestR st.compiledExclude id
  if ex.fst then (false, { st with compiledExclude := ex.snd })
  else if st.compiledInclude.length = 0 then (true, { st with compiledExclude := ex.snd })
  else
    let inc := someTestR st.compiledInclude id
    (inc.fst, ⟨inc.snd, ex.snd⟩)

/-! ## Lemmas about the pattern compiler on star-free patterns -/

/-- Escaping introduces no `*` character. -/
theorem star_not_mem_escapeChars {s : List Char} (h : '*' ∉ s) : '*' ∉ escapeChars s := by
  induction s with
  | nil => simp [escapeChars]
  | cons c cs ih =>
    have hc : c ≠ '*' := fun hc => h (hc ▸ List.mem_cons_self c cs)
    have hcs : '*' ∉ cs := fun hm => h (List.mem_cons_of_mem c hm)
    by_cases hm : c ∈ metaChars <;>
      simp [escapeChars, hm, ih hcs, Ne.symm hc]

/-- On a star-free string the `**` replacement is the identity. -/
theorem replaceDoubleStar_eq_self : ∀ {l : List Char}, '*' ∉ l → replaceDoubleStar l = l
  | [], _ => rfl
  | [c], _ => rfl
  | c :: d :: cs, h => by
    have hc : c ≠ '*' := fun hc => h (hc ▸ List.mem_cons_self c (d :: cs))
    have hrest : '*' ∉ d :: cs := fun hm => h (List.mem_cons_of_mem c hm)
    have hcd : ¬ (c = '*' ∧ d = '*') := fun hx => hc hx.1
    simp only [replaceDoubleStar, if_neg hcd]
    rw [replaceDoubleStar_eq_self hrest]

/-- On a star-free string the `*` replacement is the identity. -/
theorem replaceStar_eq_self : ∀ {l : List Char}, '*' ∉ l → replaceStar l = l
  | [], _ => rfl
  | c :: cs, h => by
    have hc : c ≠ '*' := fun hc => h (hc ▸ List.mem_cons_self c cs)
    have hcs : '*' ∉ cs := fun hm => h (List.mem_cons_of_mem c hm)
    simp only [replaceStar, if_neg hc]
    rw [replaceStar_eq_self hcs]

/-- An escaped string followed by `$` never starts with a bare `*`. -/
theorem escape_dollar_ne_star (cs : List Char) :
    ∀ ds, escapeChars cs ++ ['$'] ≠ '*' :: ds := by
  intro ds
  cases cs with
  | nil => simp [escapeChars]
  | cons d l =>
    by_cases hm : d ∈ metaChars
    · simp [escapeChars, hm]
    · have hd : d ≠ '*' := by
        intro h
        exact hm (by simp [h, metaChars])
      simp [escapeChars, hm, hd]

/-- Parsing an identity escape not followed by `*` yields a literal atom. -/
theorem parseItems_backslash (c : Char) (rest : List Char)
    (h : ∀ ds, rest ≠ '*' :: ds) :
    parseItems ('\\' :: c :: rest) = Item.atom (Atom.lit c) :: parseItems rest := by
  match rest with
  | [] => simp [parseItems]
  | d :: ds =>
    have hd : d ≠ '*' := fun hd => h ds (by rw [hd])
    simp [parseItems, hd]

/-- Parsing an unescaped non-metacharacter not followed by `*` yields a
literal atom. -/
theorem parseItems_literal (c : Char) (rest : List Char)
    (hc : c ∉ metaChars) (h : ∀ ds, rest ≠ '*' :: ds) :
    parseItems (c :: rest) = Item.atom (Atom.lit c) :: parseItems rest := by
  simp only [metaChars, List.mem_cons, not_or] at hc
  obtain ⟨h1, h2, h3, h4, h5, h6, h7, h8, h9, h10, h11, h12, h13, h14, -⟩ := hc
  match rest with
  | [] => simp [parseItems, h1, h2, h3, h9, h10, h7, h14]
  | d :: ds =>
    have hd : d ≠ '*' := fun hd => h ds (by rw [hd])
    simp [parseItems, h1, h2, h3, h9, h10, h7, h14, hd]

/-- Parsing an escaped string with a closing `$` gives one literal atom per
original character, then the end assertion.  (No star-freeness is needed:
every `*` of the original is escaped, so the `*`-lookahead never fires.) -/
theorem parseItems_escape : ∀ s : List Char,
    parseItems (escapeChars s ++ ['$']) =
      s.map (fun c => Item.atom (Atom.lit c)) ++ [Item.eol]
  | [] => by simp [escapeChars, parseItems]
  | c :: cs => by
    by_cases hm : c ∈ metaChars
    · have heq : escapeChars (c :: cs) ++ ['$'] = '\\' :: c :: (escapeChars cs ++ ['$']) := by
        simp [escapeChars, hm]
      rw [heq, parseItems_backslash c _ (escape_dollar_ne_star cs), parseItems_escape cs]
      simp
    · have heq : escapeChars (c :: cs) ++ ['$'] = c :: (escapeChars cs ++ ['$']) := by
        simp [escapeChars, hm]
      rw [heq,
        parseItems_literal c _ hm (escape_dollar_ne_star cs),
        parseItems_escape cs]
      simp

/-- Matching a pure literal-atom sequence followed by the end assertion:
it succeeds (ending at the end of the input) exactly when the rest of the
input equals the literal sequence. -/
theorem matchEnd_lits :
    ∀ (s t : List Char) (p fuel : Nat), p ≤ t.length →
      s.length + (t.length - p) + 2 ≤ fuel →
      matchEnd fuel (s.map (fun c => Item.atom (Atom.lit c)) ++ [Item.eol]) t p =
        if t.drop p = s then some t.length else none := by
  intro s
  induction s with
  | nil =>
    intro t p fuel hp hfuel
    obtain ⟨f, rfl⟩ : ∃ f, fuel = f + 2 := ⟨fuel - 2, by omega⟩
    by_cases hpe : p = t.length
    · subst hpe
      simp [matchEnd, List.drop_eq_nil_iff.mpr (le_refl _)]
    · have : ¬ t.drop p = [] := by
        rw [List.drop_eq_nil_iff]
        omega
      simp [matchEnd, hpe, this]
  | cons c cs ih =>
    intro t p fuel hp hfuel
    obtain ⟨f, rfl⟩ : ∃ f, fuel = f + 1 := ⟨fuel - 1, by omega⟩
    simp only [List.map_cons, List.cons_append]
    by_cases hlt : p < t.length
    · have hdrop : t.drop p = t[p] :: t.drop (p + 1) := List.drop_eq_getElem_cons hlt
      by_cases hc : c = t[p]
      · have hih := ih t (p + 1) f (by omega) (by simp at hfuel ⊢; omega)
        simp only [matchEnd, dif_pos hlt, List.get_eq_getElem]
        have hat : atomTest (Atom.lit c) t[p] = true := by
          simp [atomTest, hc]
        rw [if_pos hat, hih]
        by_cases hd : t.drop (p + 1) = cs
        · rw [if_pos hd, if_pos (by rw [hdrop, hc, hd])]
        · rw [if_neg hd, if_neg]
          rw [hdrop]
          intro hx
          injection hx with h1 h2
          exact hd h2
      · simp only [matchEnd, dif_pos hlt, List.get_eq_getElem]
        have hat : atomTest (Atom.lit c) t[p] = false := by
          simp only [atomTest, decide_eq_false_iff_not]
          exact hc
        have hcond : ¬ (t.drop p = c :: cs) := by
          rw [hdrop]
          intro h
          injection h with h1 h2
          exact hc h1.symm
        rw [if_neg (by simp [hat]), if_neg hcond]
    · have hpe : p = t.length := by omega
      have hnil : t.drop p = [] := List.drop_eq_nil_iff.mpr (by omega)
      simp [matchEnd, hlt, hnil]

/-- A `^`-headed item list can only match at position 0. -/
theorem matchEnd_bol_pos (fuel : Nat) (its : List Item) (t : List Char) (p : Nat)
    (hp : p ≠ 0) : matchEnd fuel (Item.bol :: its) t p = none := by
  cases fuel with
  | zero => rfl
  | succ f => simp [matchEnd, hp]

/-- Searching for a `^`-headed item list from 0 is just matching at 0. -/
theorem searchFrom_bol (its : List Item) (t : List Char) :
    searchFrom (Item.bol :: its) t 0 =
      matchEnd (stdFuel (Item.bol :: its) t) (Item.bol :: its) t 0 := by
  unfold searchFrom
  rw [Nat.sub_zero, List.range_succ_eq_map]
  simp only [List.map_cons, Nat.zero_add, List.findSome?_cons, List.map_map]
  cases h : matchEnd (stdFuel (Item.bol :: its) t) (Item.bol :: its) t 0 with
  | some e => simp
  | none =>
    simp only []
    rw [List.findSome?_eq_none_iff.mpr]
    intro x hx
    simp only [List.mem_map] at hx
    obtain ⟨n, -, rfl⟩ := hx
    exact matchEnd_bol_pos _ its t _ (by simp [Function.comp, Nat.succ_ne_zero])

/-- Parsing a leading `^` yields the start assertion. -/
theorem parseItems_caret (l : List Char) :
    parseItems ('^' :: l) = Item.bol :: parseItems l := by
  simp [parseItems]

/-- Unfolding one successor of fuel on a `^`-headed item list at position 0. -/
theorem matchEnd_bol_zero (f : Nat) (its : List Item) (t : List Char) :
    matchEnd (f + 1) (Item.bol :: its) t 0 = matchEnd f its t 0 := by
  simp [matchEnd]

/-- On a star-free pattern string, the compiled pattern tests exact equality
with the pattern: the compiled regex is `^` + the escaped literal + `$`. -/
theorem patternTest_str_literal (s : List Char) (hs : '*' ∉ s) (t : List Char) :
    patternTest (Pattern.str s) t = decide (t = s) := by
  have hsrc : compiledSource s = '^' :: (escapeChars s ++ ['$']) := by
    unfold compiledSource
    rw [replaceDoubleStar_eq_self (star_not_mem_escapeChars hs),
      replaceStar_eq_self (star_not_mem_escapeChars hs)]
  have hparse : compilePattern s =
      Item.bol :: (s.map (fun c => Item.atom (Atom.lit c)) ++ [Item.eol]) := by
    unfold compilePattern
    rw [hsrc, parseItems_caret, parseItems_escape s]
  have hfuel : stdFuel (Item.bol :: (s.map (fun c => Item.atom (Atom.lit c)) ++ [Item.eol])) t =
      (s.length + t.length + 2) + 1 := by
    simp [stdFuel]
    omega
  simp only [patternTest, testItems]
  rw [hparse, searchFrom_bol, hfuel, matchEnd_bol_zero,
    matchEnd_lits s t 0 _ (Nat.zero_le _) (by omega)]
  by_cases h : t = s
  · simp [h]
  · have hd : ¬ t.drop 0 = s := by simpa using h
    simp [hd, h]

/-! ## Further shared lemmas -/

/-- A list is a prefix of itself followed by anything. -/
theorem leadsWith_refl_append : ∀ (pat rest : List Char), leadsWith pat (pat ++ rest) = true
  | [], _ => rfl
  | c :: cs, rest => by simp [leadsWith, leadsWith_refl_append cs rest]

/-- A prefix is in particular a substring. -/
theorem containsSub_of_leadsWith :
    ∀ (pat s : List Char), leadsWith pat s = true → containsSub pat s = true
  | pat, [], h => by simpa [containsSub] using h
  | pat, d :: ds, h => by simp [containsSub, h]

/-- Every lint-abort message contains the marker substring the catch block
looks for. -/
theorem validation_marker (rel : List Char) (E W : Nat) :
    containsSub errorMarker (validationMessage rel E W) = true := by
  apply containsSub_of_leadsWith
  have hsplit : "ESLint validation failed for ".toList =
      errorMarker ++ " for ".toList := by decide
  show leadsWith _ (validationMessage rel E W) = true
  unfold validationMessage
  rw [hsplit, List.append_assoc]
  exact leadsWith_refl_append _ _

/-- A non-global regex's `test` leaves the regex object unchanged. -/
theorem testR_nonglobal (r : JsRegex) (s : List Char) (h : r.global = false) :
    (testR r s).snd = r := by
  cases h2 : searchFrom r.items s 0 with
  | none => simp [testR, h, h2]
  | some e => simp [testR, h, h2]

/-- Running `.some` over non-global regexes leaves the array unchanged. -/
theorem someTestR_nonglobal : ∀ (rs : List JsRegex) (s : List Char),
    (∀ r ∈ rs, r.global = false) → (someTestR rs s).snd = rs
  | [], _, _ => rfl
  | r :: rs, s, h => by
    have h1 := testR_nonglobal r s (h r (List.mem_cons_self r rs))
    have h2 := someTestR_nonglobal rs s (fun x hx => h x (List.mem_cons_of_mem r hx))
    by_cases hb : (testR r s).fst = true <;> simp [someTestR, hb, h1, h2]

/-! ## Claims -/

/-- C1: the spec claims the compiled pattern gives `**` cross-separator and
`*` within-component glob semantics, with `src/**/*.js` matching `src/a/b.js`
and `src/*.js` not matching it.  The code escapes `*` along with the other
metacharacters, so the `**` replacement (which looks for two adjacent bare
stars) never fires, and the `*` replacement turns each `\*` into `\[^/]*` —
a regex in which `\[` is a literal bracket and `^` a start-of-input
assertion.  Hence every starred pattern compiles to a regex that matches
nothing: `src/**/*.js` fails to match `src/a/b.js`, and even `src/*.js`
fails to match `src/a.js` and `*.js` fails to match `a.js`, although the
code's own comment promises `*.js` compiles to `/^.*\.js$/` (whose item
list, parsed here from that very source text, does match `a.js`). -/
theorem c1_star_compilation_broken :
    patternTest (Pattern.str "src/**/*.js".toList) "src/a/b.js".toList = false ∧
    patternTest (Pattern.str "src/*.js".toList) "src/a/b.js".toList = false ∧
    patternTest (Pattern.str "src/*.js".toList) "src/a.js".toList = false ∧
    patternTest (Pattern.str "*.js".toList) "a.js".toList = false ∧
    compiledSource "src/*.js".toList = "^src/\\[^/]*\\.js$".toList ∧
    testItems (parseItems "^.*\\.js$".toList) "a.js".toList = true :=
  ⟨by decide, by decide, by decide, by decide, by decide, by decide⟩

/-- C8: a literal pattern string containing no wildcard character compiles
to an anchored whole-string matcher: it matches the pattern string itself,
and no other string. -/
theorem c8_literal_roundtrip (s t : List Char) (hs : '*' ∉ s) :
    patternTest (Pattern.str s) s = true ∧
      (t ≠ s → patternTest (Pattern.str s) t = false) := by
  constructor
  · rw [patternTest_str_literal s hs s]
    simp
  · intro ht
    rw [patternTest_str_literal s hs t]
    simp [ht]

theorem c8_literal_roundtrip_witness :
    ('*' ∉ "a.js".toList) ∧
      (patternTest (Pattern.str "a.js".toList) "a.js".toList = true ∧
        ("b.js".toList ≠ "a.js".toList →
          patternTest (Pattern.str "a.js".toList) "b.js".toList = false)) :=
  ⟨by decide, c8_literal_roundtrip "a.js".toList "b.js".toList (by decide)⟩

/-- C3: a path matching any compiled exclude pattern is rejected by the
filter, whatever the include configuration. -/
theorem c3_exclude_precedence (includeArg excludeArg : PathArg) (id : List Char)
    (h : ∃ f ∈ handlePath excludeArg, f id = true) :
    createFilter includeArg excludeArg id = false := by
  unfold createFilter filter
  rw [if_pos (List.any_eq_true.mpr h)]

theorem c3_exclude_precedence_witness :
    (∃ f ∈ handlePath (PathArg.single (Pattern.str ['a'])), f ['a'] = true) ∧
      createFilter (PathArg.single (Pattern.str ['a']))
        (PathArg.single (Pattern.str ['a'])) ['a'] = false :=
  ⟨by decide, c3_exclude_precedence _ _ _ (by decide)⟩

/-- C4: when no exclude pattern matches, an empty include set (null,
undefined or an empty array) admits every path, and a non-empty include set
admits exactly the paths matching at least one include pattern. -/
theorem c4_include_semantics (includeArg excludeArg : PathArg) (id : List Char)
    (h : ¬ ∃ f ∈ handlePath excludeArg, f id = true) :
    (handlePath includeArg = [] → createFilter includeArg excludeArg id = true) ∧
      (handlePath includeArg ≠ [] →
        (createFilter includeArg excludeArg id = true ↔
          ∃ f ∈ handlePath includeArg, f id = true)) := by
  have hex : ¬ ((handlePath excludeArg).any (fun f => f id) = true) :=
    fun hx => h (List.any_eq_true.mp hx)
  unfold createFilter filter
  rw [if_neg hex]
  constructor
  · intro hinc
    rw [hinc]
    simp
  · intro hne
    rw [if_neg (by simpa [List.length_eq_zero] using hne)]
    exact List.any_eq_true

/-- C2: for a lint run returning a single result with `E` errors and `W`
warnings (and a formatter that returns non-empty output), the transform
throws iff `(E>0 ∧ throwOnError) ∨ (W>0 ∧ throwOnWarning)`; when neither
holds it returns null and the formatted findings are still logged. -/
theorem c2_abort_policy (opts : Options) (ci ce : List (List Char → Bool))
    (id rel out : List Char) (E W : Nat)
    (hfilter : filter ci ce id = true) (hout : out ≠ []) :
    ((transform opts ci ce id
          ⟨Except.ok false, Except.ok [⟨E, W⟩], Except.ok out, rel⟩).outcome ≠
        Outcome.retNull ↔
      (0 < E ∧ opts.throwOnError = true) ∨ (0 < W ∧ opts.throwOnWarning = true)) ∧
    (¬ ((0 < E ∧ opts.throwOnError = true) ∨ (0 < W ∧ opts.throwOnWarning = true)) →
      (transform opts ci ce id
            ⟨Except.ok false, Except.ok [⟨E, W⟩], Except.ok out, rel⟩).outcome =
          Outcome.retNull ∧
        (transform opts ci ce id
            ⟨Except.ok false, Except.ok [⟨E, W⟩], Except.ok out, rel⟩).effects.logs =
          [out]) := by
  have hiff : (((decide (0 < E) && opts.throwOnError) ||
        (decide (0 < W) && opts.throwOnWarning)) = true) ↔
      ((0 < E ∧ opts.throwOnError = true) ∨ (0 < W ∧ opts.throwOnWarning = true)) := by
    simp [Bool.or_eq_true, Bool.and_eq_true, decide_eq_true_eq]
  by_cases hb : ((decide (0 < E) && opts.throwOnError) ||
      (decide (0 < W) && opts.throwOnWarning)) = true
  · have hres : transform opts ci ce id
        ⟨Except.ok false, Except.ok [⟨E, W⟩], Except.ok out, rel⟩ =
        ⟨Outcome.thrown (validationMessage rel E W), opts.fix, [out], []⟩ := by
      simp [transform, tryBody, hfilter, hout, hb, validation_marker]
    rw [hres]
    exact ⟨⟨fun _ => hiff.mp hb, fun _ => by simp⟩, fun hc => absurd (hiff.mp hb) hc⟩
  · have hb2 : ((decide (0 < E) && opts.throwOnError) ||
        (decide (0 < W) && opts.throwOnWarning)) = false := by
      rwa [Bool.not_eq_true] at hb
    have hres : transform opts ci ce id
        ⟨Except.ok false, Except.ok [⟨E, W⟩], Except.ok out, rel⟩ =
        ⟨Outcome.retNull, opts.fix, [out], []⟩ := by
      simp [transform, tryBody, hfilter, hout, hb2]
    rw [hres]
    exact ⟨⟨fun hne => absurd rfl hne, fun hab => absurd (hiff.mpr hab) hb⟩,
      fun _ => ⟨rfl, rfl⟩⟩

theorem c2_abort_policy_witness :
    (filter [] [] "a".toList = true ∧ "o".toList ≠ []) ∧
      (((transform ⟨false, false, false⟩ [] [] "a".toList
            ⟨Except.ok false, Except.ok [⟨1, 0⟩], Except.ok "o".toList, "a".toList⟩).outcome ≠
          Outcome.retNull ↔
        (0 < 1 ∧ false = true) ∨ (0 < 0 ∧ false = true)) ∧
      (¬ ((0 < 1 ∧ false = true) ∨ (0 < 0 ∧ false = true)) →
        (transform ⟨false, false, false⟩ [] [] "a".toList
              ⟨Except.ok false, Except.ok [⟨1, 0⟩], Except.ok "o".toList, "a".toList⟩).outcome =
            Outcome.retNull ∧
          (transform ⟨false, false, false⟩ [] [] "a".toList
              ⟨Except.ok false, Except.ok [⟨1, 0⟩], Except.ok "o".toList, "a".toList⟩).effects.logs =
            ["o".toList])) :=
  ⟨⟨by decide, by decide⟩,
    c2_abort_policy ⟨false, false, false⟩ [] [] "a".toList "a".toList "o".toList 1 0
      (by decide) (by decide)⟩

/-- C5 as stated is false on the code: with `throwOnError = false`, a
collaborator (formatter) failure whose message happens to contain the
substring `ESLint validation failed` is rethrown unchanged — neither
swallowed nor logged — because the catch block discriminates lint aborts
from other errors by substring matching on the message. -/
theorem c5_counterexample :
    (transform ⟨false, false, false⟩ [] [] "a".toList
        ⟨Except.ok false, Except.ok [⟨1, 0⟩],
          Except.error "ESLint validation failed: formatter crashed".toList,
          "a".toList⟩).outcome ≠ Outcome.retNull ∧
      (transform ⟨false, false, false⟩ [] [] "a".toList
          ⟨Except.ok false, Except.ok [⟨1, 0⟩],
            Except.error "ESLint validation failed: formatter crashed".toList,
            "a".toList⟩).effects.errLogs = [] :=
  ⟨by decide, by decide⟩

/-- C5 amended: every error escaping the try block whose message does not
contain the marker substring is `console.error`-logged and rethrown wrapped
as `ESLint plugin error: ...` iff `throwOnError` is set (swallowed when it
is not); an error carrying a lint-abort message propagates unchanged. -/
theorem c5_nonlint_error_handling (opts : Options) (ci ce : List (List Char → Bool))
    (id : List Char) (env : Env) (eff : Effects) (m : List Char)
    (hfilter : filter ci ce id = true)
    (htb : tryBody opts env = (eff, some m))
    (hm : containsSub errorMarker m = false) :
    ((transform opts ci ce id env).effects.errLogs =
        eff.errLogs ++ ["Error running ESLint on ".toList ++ id ++ ":".toList] ∧
      (opts.throwOnError = true →
        (transform opts ci ce id env).outcome =
          Outcome.thrown ("ESLint plugin error: ".toList ++ m)) ∧
      (opts.throwOnError = false →
        (transform opts ci ce id env).outcome = Outcome.retNull)) ∧
    (∀ (env2 : Env) (eff2 : Effects) (rel : List Char) (E W : Nat),
      tryBody opts env2 = (eff2, some (validationMessage rel E W)) →
      (transform opts ci ce id env2).outcome =
        Outcome.thrown (validationMessage rel E W)) := by
  constructor
  · refine ⟨?_, ?_, ?_⟩
    · by_cases hth : opts.throwOnError = true <;>
        simp [transform, hfilter, htb, hm, hth]
    · intro hth
      simp [transform, hfilter, htb, hm, hth]
    · intro hth
      simp [transform, hfilter, htb, hm, hth]
  · intro env2 eff2 rel E W htb2
    simp [transform, hfilter, htb2, validation_marker]

theorem c5_nonlint_error_handling_witness :
    (filter [] [] "a".toList = true ∧
      tryBody ⟨false, false, false⟩
          ⟨Except.ok false, Except.ok [⟨1, 0⟩], Except.error "boom".toList, "a".toList⟩ =
        (⟨false, [], []⟩, some "boom".toList) ∧
      containsSub errorMarker "boom".toList = false) ∧
      (((transform ⟨false, false, false⟩ [] [] "a".toList
            ⟨Except.ok false, Except.ok [⟨1, 0⟩], Except.error "boom".toList,
              "a".toList⟩).effects.errLogs =
          [] ++ ["Error running ESLint on ".toList ++ "a".toList ++ ":".toList] ∧
        (false = true →
          (transform ⟨false, false, false⟩ [] [] "a".toList
              ⟨Except.ok false, Except.ok [⟨1, 0⟩], Except.error "boom".toList,
                "a".toList⟩).outcome =
            Outcome.thrown ("ESLint plugin error: ".toList ++ "boom".toList)) ∧
        (false = false →
          (transform ⟨false, false, false⟩ [] [] "a".toList
              ⟨Except.ok false, Except.ok [⟨1, 0⟩], Except.error "boom".toList,
                "a".toList⟩).outcome = Outcome.retNull)) ∧
      (∀ (env2 : Env) (eff2 : Effects) (rel : List Char) (E W : Nat),
        tryBody ⟨false, false, false⟩ env2 = (eff2, some (validationMessage rel E W)) →
        (transform ⟨false, false, false⟩ [] [] "a".toList env2).outcome =
          Outcome.thrown (validationMessage rel E W))) :=
  ⟨⟨by decide, by decide, by decide⟩,
    c5_nonlint_error_handling ⟨false, false, false⟩ [] [] "a".toList
      ⟨Except.ok false, Except.ok [⟨1, 0⟩], Except.error "boom".toList, "a".toList⟩
      ⟨false, [], []⟩ "boom".toList (by decide) (by decide) (by decide)⟩

/-- C6: a lint abort's message names the relative path and pluralizes the
counts: `1 error`, `2 errors`, combined `1 error and 2 warnings`, and a zero
count contributes no part at all. -/
theorem c6_message_pluralization (rel : List Char) :
    (∀ (ci ce : List (List Char → Bool)) (id out : List Char),
      filter ci ce id = true →
      (transform ⟨false, true, false⟩ ci ce id
          ⟨Except.ok false, Except.ok [⟨1, 2⟩], Except.ok out, rel⟩).outcome =
        Outcome.thrown (validationMessage rel 1 2)) ∧
    validationMessage rel 1 0 =
      "ESLint validation failed for ".toList ++ rel ++ ": 1 error".toList ∧
    validationMessage rel 2 0 =
      "ESLint validation failed for ".toList ++ rel ++ ": 2 errors".toList ∧
    validationMessage rel 1 2 =
      "ESLint validation failed for ".toList ++ rel ++ ": 1 error and 2 warnings".toList ∧
    validationMessage rel 0 2 =
      "ESLint validation failed for ".toList ++ rel ++ ": 2 warnings".toList ∧
    validationMessage rel 3 1 =
      "ESLint validation failed for ".toList ++ rel ++ ": 3 errors and 1 warning".toList := by
  refine ⟨?_, ?_, ?_, ?_, ?_, ?_⟩
  · intro ci ce id out hfilter
    simp [transform, tryBody, hfilter, validation_marker]
  all_goals
    unfold validationMessage
    simp only [List.append_assoc]
    congr 1

theorem c6_message_pluralization_witness :
    filter [] [] "x/app.js".toList = true ∧
      (transform ⟨false, true, false⟩ [] [] "x/app.js".toList
          ⟨Except.ok false, Except.ok [⟨1, 2⟩], Except.ok "o".toList,
            "app.js".toList⟩).outcome =
        Outcome.thrown (validationMessage "app.js".toList 1 2) :=
  ⟨by decide,
    (c6_message_pluralization "app.js".toList).1 [] [] "x/app.js".toList "o".toList
      (by decide)⟩

/-- C7: when `fix` is enabled and the lint engine returns a non-empty result
list, `ESLint.outputFixes` runs — whatever happens afterwards (formatter
failure, lint abort, or normal completion). -/
theorem c7_fix_applied_before_abort (opts : Options) (ci ce : List (List Char → Bool))
    (id rel : List Char) (fo : Except (List Char) (List Char))
    (rs : List LintResult) (hfix : opts.fix = true) (hne : rs ≠ [])
    (hfilter : filter ci ce id = true) :
    (transform opts ci ce id
        ⟨Except.ok false, Except.ok rs, fo, rel⟩).effects.fixesApplied = true := by
  obtain ⟨r, rest, rfl⟩ : ∃ r rest, rs = r :: rest := by
    cases rs with
    | nil => exact absurd rfl hne
    | cons r rest => exact ⟨r, rest, rfl⟩
  cases fo with
  | error e =>
    by_cases hm : containsSub errorMarker e = true
    · simp [transform, tryBody, hfilter, hfix, hm]
    · have hm2 : containsSub errorMarker e = false := by
        rwa [Bool.not_eq_true] at hm
      by_cases hth : opts.throwOnError = true <;>
        simp [transform, tryBody, hfilter, hfix, hm2, hth]
  | ok output =>
    by_cases hb : ((decide (0 < r.errorCount) && opts.throwOnError) ||
        (decide (0 < r.warningCount) && opts.throwOnWarning)) = true
    · simp [transform, tryBody, hfilter, hfix, hb, validation_marker]
    · have hb2 : ((decide (0 < r.errorCount) && opts.throwOnError) ||
          (decide (0 < r.warningCount) && opts.throwOnWarning)) = false := by
        rwa [Bool.not_eq_true] at hb
      simp [transform, tryBody, hfilter, hfix, hb2]

theorem c7_fix_applied_before_abort_witness :
    ((true : Bool) = true ∧ ([⟨1, 0⟩] : List LintResult) ≠ [] ∧
        filter [] [] "a".toList = true) ∧
      (transform ⟨true, true, false⟩ [] [] "a".toList
          ⟨Except.ok false, Except.ok [⟨1, 0⟩], Except.ok "o".toList,
            "a".toList⟩).effects.fixesApplied = true :=
  ⟨⟨by decide, by decide, by decide⟩,
    c7_fix_applied_before_abort ⟨true, true, false⟩ [] [] "a".toList "a".toList
      (Except.ok "o".toList) [⟨1, 0⟩] (by decide) (by decide) (by decide)⟩

/-- C10: the abort decision and message read only `results[0]`: an empty
result list gives a null return with no effects (independently of whatever
the formatter would have answered, which is never consulted), and the
elements after the first never influence the transform's result. -/
theorem c10_only_first_result (opts : Options) (ci ce : List (List Char → Bool))
    (id rel : List Char) (hfilter : filter ci ce id = true) :
    (∀ fo fo2 : Except (List Char) (List Char),
      transform opts ci ce id ⟨Except.ok false, Except.ok [], fo, rel⟩ =
        ⟨Outcome.retNull, ⟨false, [], []⟩⟩ ∧
      transform opts ci ce id ⟨Except.ok false, Except.ok [], fo, rel⟩ =
        transform opts ci ce id ⟨Except.ok false, Except.ok [], fo2, rel⟩) ∧
    (∀ (r : LintResult) (rest rest' : List LintResult)
        (fo : Except (List Char) (List Char)),
      transform opts ci ce id ⟨Except.ok false, Except.ok (r :: rest), fo, rel⟩ =
        transform opts ci ce id ⟨Except.ok false, Except.ok (r :: rest'), fo, rel⟩) := by
  constructor
  · intro fo fo2
    constructor
    · simp [transform, tryBody, hfilter]
    · simp [transform, tryBody, hfilter]
  · intro r rest rest' fo
    have heq : tryBody opts ⟨Except.ok false, Except.ok (r :: rest), fo, rel⟩ =
        tryBody opts ⟨Except.ok false, Except.ok (r :: rest'), fo, rel⟩ := by
      simp [tryBody]
    simp only [transform, heq]

theorem c10_only_first_result_witness :
    filter [] [] "a".toList = true ∧
      ((∀ fo fo2 : Except (List Char) (List Char),
        transform ⟨true, true, true⟩ [] [] "a".toList
            ⟨Except.ok false, Except.ok [], fo, "a".toList⟩ =
          ⟨Outcome.retNull, ⟨false, [], []⟩⟩ ∧
        transform ⟨true, true, true⟩ [] [] "a".toList
            ⟨Except.ok false, Except.ok [], fo, "a".toList⟩ =
          transform ⟨true, true, true⟩ [] [] "a".toList
            ⟨Except.ok false, Except.ok [], fo2, "a".toList⟩) ∧
      (∀ (r : LintResult) (rest rest' : List LintResult)
          (fo : Except (List Char) (List Char)),
        transform ⟨true, true, true⟩ [] [] "a".toList
            ⟨Except.ok false, Except.ok (r :: rest), fo, "a".toList⟩ =
          transform ⟨true, true, true⟩ [] [] "a".toList
            ⟨Except.ok false, Except.ok (r :: rest'), fo, "a".toList⟩)) :=
  ⟨by decide, c10_only_first_result ⟨true, true, true⟩ [] [] "a".toList "a".toList
    (by decide)⟩

/-- C9 as stated is false on the code: a caller-supplied regex is used
verbatim including its flags, and a `g`-flagged regex makes `test` stateful
through `lastIndex`.  With `/oo/g` as the only exclude pattern and the path
`foo`, the first call excludes the path (`filter = false`) and leaves
`lastIndex = 3`; the second, identical call finds no match from position 3,
resets `lastIndex`, and returns `true`. -/
theorem c9_counterexample :
    (filterR ⟨[], [⟨[Item.atom (Atom.lit 'o'), Item.atom (Atom.lit 'o')], true, 0⟩]⟩
        "foo".toList).fst = false ∧
      (filterR
          (filterR ⟨[], [⟨[Item.atom (Atom.lit 'o'), Item.atom (Atom.lit 'o')], true, 0⟩]⟩
              "foo".toList).snd
          "foo".toList).fst = true :=
  ⟨by decide, by decide⟩

/-- C9 amended: whenever every stored regex is non-global — always the case
for string patterns, which compile to flagless regexes — the filter is
deterministic and stateless: a call leaves the state unchanged, so repeated
calls on the same path return the same boolean. -/
theorem c9_stateless_nonglobal (st : FilterState) (id : List Char)
    (hinc : ∀ r ∈ st.compiledInclude, r.global = false)
    (hexc : ∀ r ∈ st.compiledExclude, r.global = false) :
    (filterR st id).snd = st ∧
      filterR ((filterR st id).snd) id = filterR st id := by
  have hex := someTestR_nonglobal st.compiledExclude id hexc
  have hin := someTestR_nonglobal st.compiledInclude id hinc
  have hsnd : (filterR st id).snd = st := by
    unfold filterR
    by_cases hb : (someTestR st.compiledExclude id).fst = true
    · simp [hb, hex]
    · by_cases hlen : st.compiledInclude.length = 0 <;>
        simp [hb, hlen, hex, hin]
  exact ⟨hsnd, by rw [hsnd]⟩

theorem c9_stateless_nonglobal_witness :
    ((∀ r ∈ ([] : List JsRegex), r.global = false) ∧
      (∀ r ∈ [(⟨[Item.atom (Atom.lit 'o')], false, 0⟩ : JsRegex)], r.global = false)) ∧
      ((filterR ⟨[], [⟨[Item.atom (Atom.lit 'o')], false, 0⟩]⟩ "foo".toList).snd =
          ⟨[], [⟨[Item.atom (Atom.lit 'o')], false, 0⟩]⟩ ∧
        filterR ((filterR ⟨[], [⟨[Item.atom (Atom.lit 'o')], false, 0⟩]⟩
              "foo".toList).snd) "foo".toList =
          filterR ⟨[], [⟨[Item.atom (Atom.lit 'o')], false, 0⟩]⟩ "foo".toList) :=
  ⟨⟨by decide, by decide⟩,
    c9_stateless_nonglobal ⟨[], [⟨[Item.atom (Atom.lit 'o')], false, 0⟩]⟩ "foo".toList
      (by decide) (by decide)⟩

theorem c4_include_semantics_witness :
    (¬ ∃ f ∈ handlePath PathArg.nullish, f "b".toList = true) ∧
      ((handlePath (PathArg.array [Pattern.str ['a'], Pattern.str ['b']]) = [] →
          createFilter (PathArg.array [Pattern.str ['a'], Pattern.str ['b']])
            PathArg.nullish "b".toList = true) ∧
        (handlePath (PathArg.array [Pattern.str ['a'], Pattern.str ['b']]) ≠ [] →
          (createFilter (PathArg.array [Pattern.str ['a'], Pattern.str ['b']])
              PathArg.nullish "b".toList = true ↔
            ∃ f ∈ handlePath (PathArg.array [Pattern.str ['a'], Pattern.str ['b']]),
              f "b".toList = true))) :=
  ⟨by decide, c4_include_semantics _ _ _ (by decide)⟩

end VPE
